import Mathlib

/-!
# Verification of the MQTT command dispatch / reconciliation engine

Shallow embedding of the two services of this repository:

* `mqtt-bridge/index.js` — HTTP→MQTT bridge: auth middleware, the
  `POST /api/mqtt/publish` endpoint, `publishToMqtt`, the dedup cache
  (`recentlyPublished` map, `PUBLISH_COOLDOWN`, periodic cleanup) and the
  poll reconciler `pollPendingCommands`.
* `mqtt-subscriber/index.js` — status consumer: the `message` handler that
  validates device status reports and patches `device_commands` records.

JavaScript values that flow through these functions are modelled by the
`Json` type below; JS truthiness (`if (!x)`) is modelled by `truthy`.
The external Directus store is modelled as a list of `Command` records;
a `patch` is applied as a field overwrite on the matching record.
-/

namespace MqttBridge

/-- JSON-ish JavaScript values (numbers restricted to integers: none of the
code performs arithmetic on payload numbers). `null` also stands for JS
`undefined` where only truthiness and equality-with-a-string matter. -/
inductive Json where
  | null
  | bool (b : Bool)
  | num  (n : Int)
  | str  (s : String)
  | arr  (elems : List Json)
  | obj  (fields : List (String × Json))

mutual

/-- Decidable equality on `Json` (the automatic deriver does not handle the
nested `List` occurrences). -/
def Json.decEq : (a b : Json) → Decidable (a = b)
  | .null, .null => isTrue rfl
  | .null, .bool _ => isFalse (fun h => Json.noConfusion h)
  | .null, .num _ => isFalse (fun h => Json.noConfusion h)
  | .null, .str _ => isFalse (fun h => Json.noConfusion h)
  | .null, .arr _ => isFalse (fun h => Json.noConfusion h)
  | .null, .obj _ => isFalse (fun h => Json.noConfusion h)
  | .bool _, .null => isFalse (fun h => Json.noConfusion h)
  | .bool a, .bool b =>
    if h : a = b then isTrue (by rw [h])
    else isFalse (fun hh => h (Json.bool.inj hh))
  | .bool _, .num _ => isFalse (fun h => Json.noConfusion h)
  | .bool _, .str _ => isFalse (fun h => Json.noConfusion h)
  | .bool _, .arr _ => isFalse (fun h => Json.noConfusion h)
  | .bool _, .obj _ => isFalse (fun h => Json.noConfusion h)
  | .num _, .null => isFalse (fun h => Json.noConfusion h)
  | .num _, .bool _ => isFalse (fun h => Json.noConfusion h)
  | .num a, .num b =>
    if h : a = b then isTrue (by rw [h])
    else isFalse (fun hh => h (Json.num.inj hh))
  | .num _, .str _ => isFalse (fun h => Json.noConfusion h)
  | .num _, .arr _ => isFalse (fun h => Json.noConfusion h)
  | .num _, .obj _ => isFalse (fun h => Json.noConfusion h)
  | .str _, .null => isFalse (fun h => Json.noConfusion h)
  | .str _, .bool _ => isFalse (fun h => Json.noConfusion h)
  | .str _, .num _ => isFalse (fun h => Json.noConfusion h)
  | .str a, .str b =>
    if h : a = b then isTrue (by rw [h])
    else isFalse (fun hh => h (Json.str.inj hh))
  | .str _, .arr _ => isFalse (fun h => Json.noConfusion h)
  | .str _, .obj _ => isFalse (fun h => Json.noConfusion h)
  | .arr _, .null => isFalse (fun h => Json.noConfusion h)
  | .arr _, .bool _ => isFalse (fun h => Json.noConfusion h)
  | .arr _, .num _ => isFalse (fun h => Json.noConfusion h)
  | .arr _, .str _ => isFalse (fun h => Json.noConfusion h)
  | .arr a, .arr b =>
    match Json.decEqList a b with
    | isTrue h => isTrue (by rw [h])
    | isFalse h => isFalse (fun hh => h (Json.arr.inj hh))
  | .arr _, .obj _ => isFalse (fun h => Json.noConfusion h)
  | .obj _, .null => isFalse (fun h => Json.noConfusion h)
  | .obj _, .bool _ => isFalse (fun h => Json.noConfusion h)
  | .obj _, .num _ => isFalse (fun h => Json.noConfusion h)
  | .obj _, .str _ => isFalse (fun h => Json.noConfusion h)
  | .obj _, .arr _ => isFalse (fun h => Json.noConfusion h)
  | .obj a, .obj b =>
    match Json.decEqFields a b with
    | isTrue h => isTrue (by rw [h])
    | isFalse h => isFalse (fun hh => h (Json.obj.inj hh))

/-- Decidable equality on lists of `Json`. -/
def Json.decEqList : (a b : List Json) → Decidable (a = b)
  | [], [] => isTrue rfl
  | [], _ :: _ => isFalse (fun h => List.noConfusion h)
  | _ :: _, [] => isFalse (fun h => List.noConfusion h)
  | x :: xs, y :: ys =>
    match Json.decEq x y, Json.decEqList xs ys with
    | isTrue h1, isTrue h2 => isTrue (by rw [h1, h2])
    | isFalse h1, _ => isFalse (fun hh => h1 (List.cons.inj hh).1)
    | _, isFalse h2 => isFalse (fun hh => h2 (List.cons.inj hh).2)

/-- Decidable equality on object field lists. -/
def Json.decEqFields : (a b : List (String × Json)) → Decidable (a = b)
  | [], [] => isTrue rfl
  | [], _ :: _ => isFalse (fun h => List.noConfusion h)
  | _ :: _, [] => isFalse (fun h => List.noConfusion h)
  | (k1, v1) :: xs, (k2, v2) :: ys =>
    if h1 : k1 = k2 then
      match Json.decEq v1 v2, Json.decEqFields xs ys with
      | isTrue h2, isTrue h3 => isTrue (by rw [h1, h2, h3])
      | isFalse h2, _ =>
        isFalse (fun hh => h2 (congrArg Prod.snd (List.cons.inj hh).1))
      | _, isFalse h3 => isFalse (fun hh => h3 (List.cons.inj hh).2)
    else isFalse (fun hh => h1 (congrArg Prod.fst (List.cons.inj hh).1))

end

instance : DecidableEq Json := Json.decEq

/-- JS truthiness of a value: `false`, `0`, `""`, `null`/`undefined` are
falsy; every object and array is truthy. -/
def truthy : Json → Bool
  | .null    => false
  | .bool b  => b
  | .num n   => n != 0
  | .str s   => s != ""
  | .arr _   => true
  | .obj _   => true

/-- Truthiness of a possibly-absent value (`undefined` is falsy). -/
def jsTruthy : Option Json → Bool
  | none   => false
  | some j => truthy j

/-- Field lookup on an object's field list (first binding wins, as in a JS
object literal read). -/
def objGet (fields : List (String × Json)) (k : String) : Option Json :=
  (fields.find? (fun f => f.1 == k)).map (fun f => f.2)

/-- Reading `payload.k` on a parsed JSON value: a field of a non-object is
`undefined` (modelled `none`). -/
def jsonGet (j : Json) (k : String) : Option Json :=
  match j with
  | .obj fields => objGet fields k
  | _ => none

/-- Does `pat` occur at the head of `s`? -/
def listStartsWith : List Char → List Char → Bool
  | [], _ => true
  | _ :: _, [] => false
  | p :: ps, c :: cs => p == c && listStartsWith ps cs

/-- Remove the first occurrence of `pat` from `s` (identity when `pat` does
not occur): the semantics of JS `s.replace(pat, '')` with a string
pattern, which replaces only the first occurrence. -/
def removeFirstOcc (pat : List Char) : List Char → List Char
  | [] => []
  | c :: cs =>
    if listStartsWith pat (c :: cs) then (c :: cs).drop pat.length
    else c :: removeFirstOcc pat cs

/-- Does `pat` occur anywhere in `s`? -/
def listContainsSub (pat : List Char) : List Char → Bool
  | [] => listStartsWith pat []
  | c :: cs => listStartsWith pat (c :: cs) || listContainsSub pat cs

/-- JS `h.replace('Bearer ', '')`: remove the first occurrence of the
substring `"Bearer "`. -/
def stripBearer (h : String) : String :=
  String.mk (removeFirstOcc "Bearer ".toList h.toList)

/-- Whether `"Bearer "` occurs as a substring of `s`. -/
def containsBearer (s : String) : Bool :=
  listContainsSub "Bearer ".toList s.toList

/-- Outcome of the auth middleware. -/
inductive AuthResult where
  | allow
  | unauthorized
deriving DecidableEq, Repr

/-- The `authMiddleware` (mqtt-bridge/index.js:65-79):
`token = req.headers.authorization?.replace('Bearer ', '')`; if
`BRIDGE_SECRET` is unset all requests pass; otherwise pass iff
`token === secret` (a missing header leaves `token` undefined, which is
never `===` a string). -/
def authMiddleware (secret : Option String) (authHeader : Option String) : AuthResult :=
  match secret with
  | none => .allow
  | some s =>
    match authHeader with
    | none => .unauthorized
    | some h => if stripBearer h = s then .allow else .unauthorized

/-- Errors a `publishToMqtt` promise can reject with. -/
inductive PublishError where
  | notConnected
  | brokerRejected (msg : String)
deriving DecidableEq, Repr

/-- The `err.message` of a `publishToMqtt` rejection: the guard rejects with
`new Error('MQTT broker not connected')`; a broker rejection carries the
mqtt library's message. -/
def publishErrorMessage : PublishError → String
  | .notConnected => "MQTT broker not connected"
  | .brokerRejected msg => msg

/-- Result of one `publishToMqtt` call. `attempted` records whether
`mqttClient.publish` was invoked at all. -/
structure PublishOutcome where
  result : Except PublishError Unit
  attempted : Bool

/-- The `publishToMqtt` helper (mqtt-bridge/index.js:82-94). `connected` is the
`mqttConnected` flag; `brokerErr` is the broker acknowledgement outcome
that the `mqttClient.publish` callback would report (`none` = success).
When disconnected, the promise rejects before `mqttClient.publish` is
ever called — nothing is queued. -/
def publishToMqtt (connected : Bool) (brokerErr : Option String) : PublishOutcome :=
  if !connected then { result := .error .notConnected, attempted := false }
  else
    match brokerErr with
    | none => { result := .ok (), attempted := true }
    | some m => { result := .error (.brokerRejected m), attempted := true }

/-- Body of a `POST /api/mqtt/publish` request after `express.json()`:
each field is absent (`none`) or a JSON value. -/
structure PublishRequest where
  topic : Option Json
  payload : Option Json
deriving DecidableEq

/-- Observable outcome of the endpoint: the HTTP status sent, and whether
a broker publish was attempted. -/
structure EndpointResult where
  status : Nat
  attempted : Bool
deriving DecidableEq, Repr

/-- Whether `"not connected"` occurs in `s` (the `err.message.includes` test). -/
def mentionsNotConnected (s : String) : Bool :=
  listContainsSub "not connected".toList s.toList

/-- The `POST /api/mqtt/publish` handler after auth
(mqtt-bridge/index.js:97-111): JS-truthiness validation of `topic` and
`payload` (each straight to 400), then `publishToMqtt`; a rejection whose
message contains `'not connected'` maps to 503, any other to 500. -/
def publishEndpoint (connected : Bool) (brokerErr : Option String)
    (req : PublishRequest) : EndpointResult :=
  if !(jsTruthy req.topic) then { status := 400, attempted := false }
  else if !(jsTruthy req.payload) then { status := 400, attempted := false }
  else
    let out := publishToMqtt connected brokerErr
    match out.result with
    | .ok _ => { status := 200, attempted := out.attempted }
    | .error e =>
      { status := if mentionsNotConnected (publishErrorMessage e) then 503 else 500
        attempted := out.attempted }

/-- The 4-state command status enum of `device_commands`. All writes this
engine performs draw from this set (`'failed'` in the reconciler;
`'processing' | 'completed' | 'failed'` in the subscriber). -/
inductive Status where
  | pending
  | processing
  | completed
  | failed
deriving DecidableEq, Repr

/-- A `device_commands` record as this engine sees it. `deviceMac` models
the chain `cmd.device_id?.device_mac` (string or null per the Directus
schema; `none` covers a missing device relation or a null MAC).
`date_created` is modelled as a sortable instant; `id` is a UUID string
(per the documented payload contract). -/
structure Command where
  id : String
  command_type : String
  fingerprint_id : Json
  member_id : Json
  deviceMac : Option String
  date_created : Nat
  status : Status
  result : Json
  error_message : Json
  executed_at : Json
deriving DecidableEq

/-- The `recentlyPublished` map: command id → timestamp of last publish. -/
abbrev DedupCache := List (String × Nat)

/-- The check `recentlyPublished.has(id)`. -/
def dedupHas (cache : DedupCache) (id : String) : Bool :=
  cache.any (fun e => e.1 == id)

/-- The write `recentlyPublished.set(id, now)`: insert or overwrite. -/
def dedupSet (cache : DedupCache) (id : String) (now : Nat) : DedupCache :=
  (id, now) :: cache.filter (fun e => e.1 != id)

/-- The constant `PUBLISH_COOLDOWN = 30000` (ms). -/
def PUBLISH_COOLDOWN : Nat := 30000

/-- The cleanup interval body (mqtt-bridge/index.js:132-139): delete every
entry with `now - timestamp > PUBLISH_COOLDOWN`. -/
def cleanupRecentlyPublished (cache : DedupCache) (now : Nat) : DedupCache :=
  cache.filter (fun e => !(now - e.2 > PUBLISH_COOLDOWN))

/-- The `limit: 10` of the poll query. -/
def POLL_LIMIT : Nat := 10

/-- The test `!deviceMac` on the resolved MAC: falsy when the relation/field is
null/absent or the string is empty. -/
def macFalsy : Option String → Bool
  | none => true
  | some s => s == ""

/-- The per-device command topic `device/${deviceMac}/commands`. -/
def mkTopic (mac : String) : String :=
  "device/" ++ mac ++ "/commands"

/-- The dispatch payload built by the reconciler
(mqtt-bridge/index.js:179-187). -/
def mkPayload (c : Command) : Json :=
  .obj [("command_id", .str c.id),
        ("type", .str c.command_type),
        ("params", .obj [("fingerprint_id", c.fingerprint_id),
                         ("member_id", c.member_id)]),
        ("timestamp", .num (Int.ofNat c.date_created))]

/-- The error recorded for an unresolvable device. -/
def noMacMsg : String := "Device has no MAC address configured"

/-- The store's application of
`PATCH /items/device_commands/{id} {status:'failed', error_message:msg}`:
overwrite those two fields of the matching record. -/
def patchFailed (store : List Command) (id : String) (msg : String) : List Command :=
  store.map (fun c =>
    if c.id = id then { c with status := .failed, error_message := .str msg }
    else c)

/-- State threaded through one reconciliation cycle, plus the cycle's
observable broker effects: the `(topic, payload)` pairs published, in
order. -/
structure CycleState where
  store : List Command
  dedup : DedupCache
  published : List (String × Json)
deriving DecidableEq

/-- One iteration of the `for (const cmd of commands)` loop
(mqtt-bridge/index.js:161-202): skip if `recentlyPublished.has(cmd.id)`;
else if the MAC is falsy, patch the record failed (no publish, no cache
entry); else publish and, only on success (`pubOk cmd.id`), record a
dedup entry — a failed publish changes nothing. -/
def processCmd (pubOk : String → Bool) (now : Nat) (st : CycleState)
    (cmd : Command) : CycleState :=
  if dedupHas st.dedup cmd.id then st
  else if macFalsy cmd.deviceMac then
    { st with store := patchFailed st.store cmd.id noMacMsg }
  else
    if pubOk cmd.id then
      { store := st.store
        dedup := dedupSet st.dedup cmd.id now
        published := st.published ++ [(mkTopic (cmd.deviceMac.getD ""), mkPayload cmd)] }
    else st

/-- Insertion into a list kept ascending by `date_created`. -/
def insertByDate (c : Command) : List Command → List Command
  | [] => [c]
  | d :: ds =>
    if c.date_created ≤ d.date_created then c :: d :: ds
    else d :: insertByDate c ds

/-- The store's `sort: 'date_created'` (oldest first). -/
def sortByDate : List Command → List Command
  | [] => []
  | c :: cs => insertByDate c (sortByDate cs)

/-- The store's answer to the poll query
(mqtt-bridge/index.js:147-154): records with `status = 'pending'`,
sorted by `date_created`, limited to 10. -/
def fetchPending (store : List Command) : List Command :=
  (sortByDate (store.filter (fun c => c.status == Status.pending))).take POLL_LIMIT

/-- One `pollPendingCommands` cycle (mqtt-bridge/index.js:141-210) as a
function of the broker connection flag, the store, and the dedup cache.
The `!directusApi` guard is outside this model (polling mode is
configured), and `isPolling` is the single-flight guard against
overlapping cycles — cycles here are applied sequentially, which is
exactly the interleaving that guard enforces. `pubOk id` tells whether
the `publishToMqtt` promise for that command resolves. The loop iterates
the fetched snapshot while its patches update the live store. -/
def pollPendingCommands (pubOk : String → Bool) (now : Nat) (connected : Bool)
    (store : List Command) (dedup : DedupCache) : CycleState :=
  if !connected then { store := store, dedup := dedup, published := [] }
  else (fetchPending store).foldl (processCmd pubOk now)
    { store := store, dedup := dedup, published := [] }

/-- The `command_id` field of a published payload. -/
def payloadCommandId (j : Json) : Option Json :=
  jsonGet j "command_id"

/-- The command ids (string `command_id` fields) of a cycle's published
payloads, in publish order. -/
def publishedIds (published : List (String × Json)) : List String :=
  published.filterMap (fun p =>
    match payloadCommandId p.2 with
    | some (.str s) => some s
    | _ => none)

/-- Look a record up by id. -/
def storeGet (store : List Command) (id : String) : Option Command :=
  store.find? (fun c => c.id == id)

/-- The four fields the subscriber's `updateData` overwrites
(mqtt-subscriber/index.js:176-181). `executed_at` is the subscriber's
`new Date().toISOString()` at processing time. -/
structure UpdateData where
  status : Status
  result : Json
  error_message : Json
  executed_at : String
deriving DecidableEq

/-- The observable outcome of one subscriber message: drop it, or patch
the record addressed by the (truthy) `command_id`. -/
inductive ConsumerAction where
  | drop
  | patch (cid : Json) (upd : UpdateData)
deriving DecidableEq

/-- The JS idiom `x || null`. -/
def jsOrNull : Option Json → Json
  | none => .null
  | some j => if truthy j then j else .null

/-- The check `validStatuses.includes(status)` plus the mapping onto the enum:
exactly the strings `'processing' | 'completed' | 'failed'` pass. -/
def decodeStatus : Option Json → Option Status
  | some (.str s) =>
    if s = "processing" then some .processing
    else if s = "completed" then some .completed
    else if s = "failed" then some .failed
    else none
  | _ => none

/-- The subscriber's `message` handler (mqtt-subscriber/index.js:150-196)
up to its store effect. `parsed` is the `JSON.parse` outcome (`none` =
`SyntaxError`, which the catch turns into a logged drop). Destructuring a
primitive yields undefined fields; destructuring the JSON value `null`
throws a TypeError that the same catch absorbs — both are drops, matching
`jsonGet` returning `none` off objects. Falsy `command_id` → drop;
unrecognized status → drop; otherwise a full overwrite of the four
fields, `executed_at` stamped with the handler's current time. -/
def handleStatusMessage (parsed : Option Json) (nowIso : String) : ConsumerAction :=
  match parsed with
  | none => .drop
  | some payload =>
    let cid := jsonGet payload "command_id"
    if !(jsTruthy cid) then .drop
    else
      match decodeStatus (jsonGet payload "status") with
      | none => .drop
      | some st =>
        .patch (cid.getD .null)
          { status := st
            result := jsOrNull (jsonGet payload "result")
            error_message := jsOrNull (jsonGet payload "error_message")
            executed_at := nowIso }

/-- The store's application of the subscriber's PATCH: overwrite the four
fields of the record whose UUID the `command_id` string interpolates into
the URL. -/
def applyUpdate (store : List Command) (cid : Json) (u : UpdateData) : List Command :=
  store.map (fun c =>
    if Json.str c.id = cid then
      { c with status := u.status
               result := u.result
               error_message := u.error_message
               executed_at := .str u.executed_at }
    else c)

/-- Apply a consumer action to the store. -/
def applyConsumerAction (store : List Command) : ConsumerAction → List Command
  | .drop => store
  | .patch cid u => applyUpdate store cid u

/-- The record a no-MAC reconciliation patch produces. -/
def failVersion (c : Command) : Command :=
  { c with status := .failed, error_message := .str noMacMsg }

/-- A resolvable pending command (concrete instance for the witnesses). -/
def exCmd : Command :=
  { id := "c1"
    command_type := "enroll"
    fingerprint_id := .num 7
    member_id := .num 3
    deviceMac := some "AA:BB:CC"
    date_created := 100
    status := .pending
    result := .null
    error_message := .null
    executed_at := .null }

/-- A pending command whose device has no MAC (concrete instance). -/
def exCmdNoMac : Command :=
  { exCmd with id := "c2", deviceMac := none }

/-! ## Helper lemmas -/

theorem dedupHas_iff_exists (cache : DedupCache) (id : String) :
    dedupHas cache id = true ↔ ∃ t, (id, t) ∈ cache := by
  simp only [dedupHas, List.any_eq_true, beq_iff_eq]
  constructor
  · rintro ⟨e, he, h1⟩
    exact ⟨e.2, by rw [← h1, Prod.mk.eta]; exact he⟩
  · rintro ⟨t, ht⟩
    exact ⟨(id, t), ht, rfl⟩

theorem mem_dedupSet_of_ne {e : String × Nat} {cache : DedupCache} {id : String}
    (now : Nat) (he : e ∈ cache) (hne : e.1 ≠ id) : e ∈ dedupSet cache id now := by
  simp only [dedupSet, List.mem_cons, List.mem_filter, bne_iff_ne]
  exact Or.inr ⟨he, hne⟩

theorem dedupHas_dedupSet_ne {id₀ id : String} (cache : DedupCache) (now : Nat)
    (h : id₀ ≠ id) : dedupHas (dedupSet cache id now) id₀ = dedupHas cache id₀ := by
  rw [Bool.eq_iff_iff, dedupHas_iff_exists, dedupHas_iff_exists]
  constructor
  · rintro ⟨t, ht⟩
    simp only [dedupSet, List.mem_cons, List.mem_filter, bne_iff_ne] at ht
    rcases ht with h1 | ⟨h1, -⟩
    · exact absurd (congrArg Prod.fst h1) h
    · exact ⟨t, h1⟩
  · rintro ⟨t, ht⟩
    exact ⟨t, mem_dedupSet_of_ne now ht h⟩

theorem dedupHas_cleanup_of_expired {cache : DedupCache} {id : String} {now : Nat}
    (h : ∀ t, (id, t) ∈ cache → now - t > PUBLISH_COOLDOWN) :
    dedupHas (cleanupRecentlyPublished cache now) id = false := by
  rw [← Bool.not_eq_true, dedupHas_iff_exists]
  rintro ⟨t, ht⟩
  simp only [cleanupRecentlyPublished, List.mem_filter, Bool.not_eq_eq_eq_not,
    Bool.not_true, decide_eq_false_iff_not, not_lt] at ht
  exact absurd (h t ht.1) (by simpa using ht.2)

theorem mem_cleanup_of_fresh {e : String × Nat} {cache : DedupCache} {now : Nat}
    (he : e ∈ cache) (h : now ≤ e.2 + PUBLISH_COOLDOWN) :
    e ∈ cleanupRecentlyPublished cache now := by
  simp only [cleanupRecentlyPublished, List.mem_filter, Bool.not_eq_eq_eq_not,
    Bool.not_true, decide_eq_false_iff_not, not_lt]
  exact ⟨he, by omega⟩

theorem payloadCommandId_mkPayload (c : Command) :
    payloadCommandId (mkPayload c) = some (.str c.id) := rfl

theorem publishedIds_append (a b : List (String × Json)) :
    publishedIds (a ++ b) = publishedIds a ++ publishedIds b := by
  simp [publishedIds, List.filterMap_append]

theorem publishedIds_single (c : Command) (topic : String) :
    publishedIds [(topic, mkPayload c)] = [c.id] := rfl

theorem storeGet_of_mem_nodup {store : List Command} {c : Command}
    (hmem : c ∈ store) (hnodup : (store.map (fun x => x.id)).Nodup) :
    storeGet store c.id = some c := by
  induction store with
  | nil => cases hmem
  | cons d t ih =>
    simp only [List.map_cons, List.nodup_cons, List.mem_map] at hnodup
    rcases List.mem_cons.mp hmem with rfl | hmem'
    · simp [storeGet]
    · have hne : d.id ≠ c.id := fun h => hnodup.1 ⟨c, hmem', h.symm⟩
      simpa [storeGet, List.find?_cons, beq_eq_false_iff_ne.mpr hne]
        using ih hmem' hnodup.2

theorem storeGet_patchFailed_ne {id₀ id : String} (store : List Command) (msg : String)
    (h : id₀ ≠ id) : storeGet (patchFailed store id msg) id₀ = storeGet store id₀ := by
  unfold storeGet patchFailed
  rw [List.find?_map]
  have hcomp : ((fun c : Command => c.id == id₀) ∘
      (fun c : Command => if c.id = id then
        { c with status := .failed, error_message := .str msg } else c)) =
      (fun c : Command => c.id == id₀) := by
    funext c
    by_cases hc : c.id = id <;> simp [hc]
  rw [hcomp]
  cases hf : store.find? (fun c => c.id == id₀) with
  | none => rfl
  | some c =>
    have : c.id = id₀ := by simpa using List.find?_some hf
    simp [Option.map_some, this, h]

theorem storeGet_patchFailed_self (store : List Command) (id : String) (msg : String) :
    storeGet (patchFailed store id msg) id = (storeGet store id).map
      (fun c => { c with status := .failed, error_message := .str msg }) := by
  unfold storeGet patchFailed
  rw [List.find?_map]
  have hcomp : ((fun c : Command => c.id == id) ∘
      (fun c : Command => if c.id = id then
        { c with status := .failed, error_message := .str msg } else c)) =
      (fun c : Command => c.id == id) := by
    funext c
    by_cases hc : c.id = id <;> simp [hc]
  rw [hcomp]
  cases hf : store.find? (fun c => c.id == id) with
  | none => rfl
  | some c =>
    have : c.id = id := by simpa using List.find?_some hf
    simp [Option.map_some, this]

theorem patchFailed_map_id (store : List Command) (id : String) (msg : String) :
    (patchFailed store id msg).map (fun c => c.id) = store.map (fun c => c.id) := by
  unfold patchFailed
  rw [List.map_map]
  apply List.map_congr_left
  intro c _
  by_cases hc : c.id = id <;> simp [hc]

theorem perm_insertByDate (c : Command) (l : List Command) :
    (insertByDate c l).Perm (c :: l) := by
  induction l with
  | nil => simp [insertByDate]
  | cons d t ih =>
    unfold insertByDate
    split
    · exact List.Perm.refl _
    · exact ((ih.cons d).trans (List.Perm.swap c d t))

theorem perm_sortByDate (l : List Command) : (sortByDate l).Perm l := by
  induction l with
  | nil => simp [sortByDate]
  | cons c t ih =>
    exact (perm_insertByDate c (sortByDate t)).trans (ih.cons c)

theorem mem_fetchPending {c : Command} {store : List Command}
    (h : c ∈ fetchPending store) : c ∈ store ∧ c.status = .pending := by
  unfold fetchPending at h
  have h1 := (List.take_sublist _ _).subset h
  have h2 := (perm_sortByDate _).subset h1
  rw [List.mem_filter] at h2
  exact ⟨h2.1, by simpa using h2.2⟩

theorem fetchPending_ids_nodup {store : List Command}
    (h : (store.map (fun c => c.id)).Nodup) :
    ((fetchPending store).map (fun c => c.id)).Nodup := by
  unfold fetchPending
  have h1 : ((store.filter (fun c => c.status == Status.pending)).map
      (fun c => c.id)).Nodup :=
    ((List.filter_sublist store).map _).nodup h
  have h2 : ((sortByDate (store.filter (fun c => c.status == Status.pending))).map
      (fun c => c.id)).Nodup :=
    (((perm_sortByDate _).map _).nodup_iff).mpr h1
  exact ((List.take_sublist _ _).map _).nodup h2

theorem processCmd_dedup_mem {st : CycleState} {id : String} {t : Nat}
    (p : String → Bool) (n : Nat) (cmd : Command)
    (h : (id, t) ∈ st.dedup) : (id, t) ∈ (processCmd p n st cmd).dedup := by
  unfold processCmd
  split_ifs with h1 h2 h3
  · exact h
  · exact h
  · refine mem_dedupSet_of_ne n h ?_
    intro he
    rw [Bool.not_eq_true] at h1
    have : dedupHas st.dedup cmd.id = true :=
      (dedupHas_iff_exists _ _).mpr ⟨t, he ▸ h⟩
    simp [this] at h1
  · exact h

theorem processCmd_dedupHas_mono {st : CycleState} {id : String}
    (p : String → Bool) (n : Nat) (cmd : Command)
    (h : dedupHas st.dedup id = true) :
    dedupHas (processCmd p n st cmd).dedup id = true := by
  rcases (dedupHas_iff_exists _ _).mp h with ⟨t, ht⟩
  exact (dedupHas_iff_exists _ _).mpr ⟨t, processCmd_dedup_mem p n cmd ht⟩

theorem processCmd_dedupHas_ne {st : CycleState} {id₀ : String} {cmd : Command}
    (p : String → Bool) (n : Nat) (h : cmd.id ≠ id₀) :
    dedupHas (processCmd p n st cmd).dedup id₀ = dedupHas st.dedup id₀ := by
  unfold processCmd
  split_ifs <;> simp [dedupHas_dedupSet_ne st.dedup n (Ne.symm h)]

theorem processCmd_storeGet_ne {st : CycleState} {id₀ : String} {cmd : Command}
    (p : String → Bool) (n : Nat) (h : cmd.id ≠ id₀) :
    storeGet (processCmd p n st cmd).store id₀ = storeGet st.store id₀ := by
  unfold processCmd
  split_ifs <;> simp [storeGet_patchFailed_ne st.store noMacMsg (Ne.symm h)]

theorem processCmd_store_ids {st : CycleState}
    (p : String → Bool) (n : Nat) (cmd : Command) :
    (processCmd p n st cmd).store.map (fun c => c.id) =
      st.store.map (fun c => c.id) := by
  unfold processCmd
  split_ifs <;> simp [patchFailed_map_id]

theorem processCmd_published_mono {st : CycleState} {id₀ : String}
    (p : String → Bool) (n : Nat) (cmd : Command)
    (h : id₀ ∈ publishedIds st.published) :
    id₀ ∈ publishedIds (processCmd p n st cmd).published := by
  unfold processCmd
  split_ifs <;> simp_all [publishedIds_append]

theorem processCmd_published_ne {st : CycleState} {id₀ : String} {cmd : Command}
    (p : String → Bool) (n : Nat) (h : cmd.id ≠ id₀) :
    id₀ ∈ publishedIds (processCmd p n st cmd).published ↔
      id₀ ∈ publishedIds st.published := by
  unfold processCmd
  split_ifs <;>
    simp_all [publishedIds_append, publishedIds_single, Ne.symm h]

theorem processCmd_published_of_has {st : CycleState} {id₀ : String}
    (p : String → Bool) (n : Nat) (cmd : Command)
    (h : dedupHas st.dedup id₀ = true) :
    id₀ ∈ publishedIds (processCmd p n st cmd).published ↔
      id₀ ∈ publishedIds st.published := by
  by_cases hid : cmd.id = id₀
  · subst hid
    unfold processCmd
    rw [if_pos h]
  · exact processCmd_published_ne p n hid

theorem processCmd_entry_invariant {st : CycleState} {id₀ : String}
    (p : String → Bool) (n : Nat) (cmd : Command)
    (h : id₀ ∈ publishedIds st.published → (id₀, n) ∈ st.dedup) :
    id₀ ∈ publishedIds (processCmd p n st cmd).published →
      (id₀, n) ∈ (processCmd p n st cmd).dedup := by
  intro hpub
  by_cases hid : cmd.id = id₀
  · subst hid
    revert hpub
    unfold processCmd
    split_ifs
    · exact fun hp => h hp
    · exact fun hp => h hp
    · intro _
      simp [dedupSet]
    · exact fun hp => h hp
  · rw [processCmd_published_ne p n hid] at hpub
    exact processCmd_dedup_mem p n cmd (h hpub)

theorem processCmd_eq_skip {st : CycleState} {cmd : Command}
    (p : String → Bool) (n : Nat) (h : dedupHas st.dedup cmd.id = true) :
    processCmd p n st cmd = st := by
  unfold processCmd
  rw [if_pos h]

theorem processCmd_eq_noMac {st : CycleState} {cmd : Command}
    (p : String → Bool) (n : Nat) (h1 : dedupHas st.dedup cmd.id = false)
    (h2 : macFalsy cmd.deviceMac = true) :
    processCmd p n st cmd =
      { st with store := patchFailed st.store cmd.id noMacMsg } := by
  unfold processCmd
  rw [if_neg (by simp [h1]), if_pos h2]

theorem processCmd_eq_publish {st : CycleState} {cmd : Command}
    (p : String → Bool) (n : Nat) (h1 : dedupHas st.dedup cmd.id = false)
    (h2 : macFalsy cmd.deviceMac = false) (h3 : p cmd.id = true) :
    processCmd p n st cmd =
      { store := st.store
        dedup := dedupSet st.dedup cmd.id n
        published := st.published ++
          [(mkTopic (cmd.deviceMac.getD ""), mkPayload cmd)] } := by
  unfold processCmd
  rw [if_neg (by simp [h1]), if_neg (by simp [h2]), if_pos h3]

theorem processCmd_eq_pubfail {st : CycleState} {cmd : Command}
    (p : String → Bool) (n : Nat) (h1 : dedupHas st.dedup cmd.id = false)
    (h2 : macFalsy cmd.deviceMac = false) (h3 : p cmd.id = false) :
    processCmd p n st cmd = st := by
  unfold processCmd
  rw [if_neg (by simp [h1]), if_neg (by simp [h2]), if_neg (by simp [h3])]

theorem foldl_dedup_mem (p : String → Bool) (n : Nat) {id : String} {t : Nat} :
    ∀ (l : List Command) (st : CycleState), (id, t) ∈ st.dedup →
      (id, t) ∈ (l.foldl (processCmd p n) st).dedup := by
  intro l
  induction l with
  | nil => exact fun st h => h
  | cons c rest ih => exact fun st h => ih _ (processCmd_dedup_mem p n c h)

theorem foldl_entry_invariant (p : String → Bool) (n : Nat) {id₀ : String} :
    ∀ (l : List Command) (st : CycleState),
      (id₀ ∈ publishedIds st.published → (id₀, n) ∈ st.dedup) →
      id₀ ∈ publishedIds (l.foldl (processCmd p n) st).published →
      (id₀, n) ∈ (l.foldl (processCmd p n) st).dedup := by
  intro l
  induction l with
  | nil => exact fun st h => h
  | cons c rest ih => exact fun st h => ih _ (processCmd_entry_invariant p n c h)

theorem foldl_published_of_has (p : String → Bool) (n : Nat) {id₀ : String} :
    ∀ (l : List Command) (st : CycleState), dedupHas st.dedup id₀ = true →
      (id₀ ∈ publishedIds (l.foldl (processCmd p n) st).published ↔
        id₀ ∈ publishedIds st.published) := by
  intro l
  induction l with
  | nil => exact fun st _ => Iff.rfl
  | cons c rest ih =>
    intro st h
    rw [List.foldl_cons, ih _ (processCmd_dedupHas_mono p n c h),
      processCmd_published_of_has p n c h]

theorem foldl_untouched (p : String → Bool) (n : Nat) {id₀ : String} :
    ∀ (l : List Command) (st : CycleState), (∀ c ∈ l, c.id ≠ id₀) →
      storeGet (l.foldl (processCmd p n) st).store id₀ = storeGet st.store id₀ ∧
      dedupHas (l.foldl (processCmd p n) st).dedup id₀ = dedupHas st.dedup id₀ ∧
      (id₀ ∈ publishedIds (l.foldl (processCmd p n) st).published ↔
        id₀ ∈ publishedIds st.published) := by
  intro l
  induction l with
  | nil => exact fun st _ => ⟨rfl, rfl, Iff.rfl⟩
  | cons c rest ih =>
    intro st h
    have hc : c.id ≠ id₀ := h c (List.mem_cons_self c rest)
    have hrest := ih (processCmd p n st c) (fun d hd => h d (List.mem_cons_of_mem c hd))
    refine ⟨?_, ?_, ?_⟩
    · rw [List.foldl_cons, hrest.1, processCmd_storeGet_ne p n hc]
    · rw [List.foldl_cons, hrest.2.1, processCmd_dedupHas_ne p n hc]
    · rw [List.foldl_cons, hrest.2.2, processCmd_published_ne p n hc]

theorem foldl_store_ids (p : String → Bool) (n : Nat) :
    ∀ (l : List Command) (st : CycleState),
      (l.foldl (processCmd p n) st).store.map (fun c => c.id) =
        st.store.map (fun c => c.id) := by
  intro l
  induction l with
  | nil => exact fun _ => rfl
  | cons c rest ih =>
    intro st
    rw [List.foldl_cons, ih _, processCmd_store_ids]

theorem foldl_published_mono (p : String → Bool) (n : Nat) {id₀ : String} :
    ∀ (l : List Command) (st : CycleState), id₀ ∈ publishedIds st.published →
      id₀ ∈ publishedIds (l.foldl (processCmd p n) st).published := by
  intro l
  induction l with
  | nil => exact fun _ h => h
  | cons c rest ih => exact fun st h => ih _ (processCmd_published_mono p n c h)

theorem poll_connected_eq (p : String → Bool) (now : Nat) (store : List Command)
    (dedup : DedupCache) :
    pollPendingCommands p now true store dedup =
      (fetchPending store).foldl (processCmd p now)
        { store := store, dedup := dedup, published := [] } := by
  simp [pollPendingCommands]

theorem batch_split {cmd : Command} {l : List Command} (hmem : cmd ∈ l)
    (hnodup : (l.map (fun c => c.id)).Nodup) :
    ∃ l₁ l₂, l = l₁ ++ cmd :: l₂ ∧ (∀ c ∈ l₁, c.id ≠ cmd.id) ∧
      (∀ c ∈ l₂, c.id ≠ cmd.id) := by
  obtain ⟨l₁, l₂, rfl⟩ := List.append_of_mem hmem
  rw [List.map_append, List.nodup_append] at hnodup
  obtain ⟨-, h2, hdisj⟩ := hnodup
  refine ⟨l₁, l₂, rfl, ?_, ?_⟩
  · intro c hc he
    exact hdisj (List.mem_map_of_mem _ hc)
      (by simp [List.map_cons, he])
  · intro c hc he
    rw [List.map_cons, List.nodup_cons] at h2
    exact h2.1 (he ▸ List.mem_map_of_mem _ hc)

theorem cycle_skips_of_has {p : String → Bool} {now : Nat} {store : List Command}
    {dedup : DedupCache} {id₀ : String} (h : dedupHas dedup id₀ = true) :
    id₀ ∉ publishedIds (pollPendingCommands p now true store dedup).published := by
  rw [poll_connected_eq]
  intro hmem
  rw [foldl_published_of_has p now _ _ h] at hmem
  simp [publishedIds] at hmem

theorem cycle_entry_of_published {p : String → Bool} {now : Nat}
    {store : List Command} {dedup : DedupCache} {id₀ : String}
    (h : id₀ ∈ publishedIds (pollPendingCommands p now true store dedup).published) :
    (id₀, now) ∈ (pollPendingCommands p now true store dedup).dedup := by
  rw [poll_connected_eq] at h ⊢
  exact foldl_entry_invariant p now _ _ (by simp [publishedIds]) h

theorem cycle_noMac_outcome {p : String → Bool} {now : Nat} {store : List Command}
    {dedup : DedupCache} {cmd : Command}
    (hnodup : (store.map (fun c => c.id)).Nodup)
    (hmem : cmd ∈ fetchPending store)
    (hmac : macFalsy cmd.deviceMac = true)
    (hded : dedupHas dedup cmd.id = false) :
    storeGet (pollPendingCommands p now true store dedup).store cmd.id =
        some (failVersion cmd) ∧
      dedupHas (pollPendingCommands p now true store dedup).dedup cmd.id = false ∧
      cmd.id ∉ publishedIds (pollPendingCommands p now true store dedup).published := by
  rw [poll_connected_eq]
  obtain ⟨l₁, l₂, hsplit, h1, h2⟩ := batch_split hmem (fetchPending_ids_nodup hnodup)
  rw [hsplit, List.foldl_append, List.foldl_cons]
  set st1 := l₁.foldl (processCmd p now)
    { store := store, dedup := dedup, published := [] } with hst1
  have hu1 := foldl_untouched p now l₁
    { store := store, dedup := dedup, published := [] } h1
  rw [← hst1] at hu1
  have hget1 : storeGet st1.store cmd.id = some cmd := by
    rw [hu1.1]
    exact storeGet_of_mem_nodup (mem_fetchPending hmem).1 hnodup
  have hded1 : dedupHas st1.dedup cmd.id = false := by
    rw [hu1.2.1]; exact hded
  have hpub1 : cmd.id ∉ publishedIds st1.published := by
    rw [hu1.2.2]; simp [publishedIds]
  rw [processCmd_eq_noMac p now hded1 hmac]
  have hu2 := foldl_untouched p now l₂
    { st1 with store := patchFailed st1.store cmd.id noMacMsg } h2
  refine ⟨?_, ?_, ?_⟩
  · rw [hu2.1]
    show storeGet (patchFailed st1.store cmd.id noMacMsg) cmd.id = _
    rw [storeGet_patchFailed_self, hget1]
    rfl
  · rw [hu2.2.1]; exact hded1
  · rw [hu2.2.2]; exact hpub1

theorem cycle_publishes {p : String → Bool} {now : Nat} {store : List Command}
    {dedup : DedupCache} {cmd : Command}
    (hnodup : (store.map (fun c => c.id)).Nodup)
    (hmem : cmd ∈ fetchPending store)
    (hmac : macFalsy cmd.deviceMac = false)
    (hded : dedupHas dedup cmd.id = false)
    (hp : p cmd.id = true) :
    cmd.id ∈ publishedIds (pollPendingCommands p now true store dedup).published := by
  rw [poll_connected_eq]
  obtain ⟨l₁, l₂, hsplit, h1, h2⟩ := batch_split hmem (fetchPending_ids_nodup hnodup)
  rw [hsplit, List.foldl_append, List.foldl_cons]
  set st1 := l₁.foldl (processCmd p now)
    { store := store, dedup := dedup, published := [] } with hst1
  have hu1 := foldl_untouched p now l₁
    { store := store, dedup := dedup, published := [] } h1
  rw [← hst1] at hu1
  have hded1 : dedupHas st1.dedup cmd.id = false := by
    rw [hu1.2.1]; exact hded
  rw [processCmd_eq_publish p now hded1 hmac hp]
  apply foldl_published_mono
  show cmd.id ∈ publishedIds (st1.published ++
    [(mkTopic (cmd.deviceMac.getD ""), mkPayload cmd)])
  rw [publishedIds_append, publishedIds_single]
  simp

theorem cycle_pubfail_outcome {p : String → Bool} {now : Nat} {store : List Command}
    {dedup : DedupCache} {cmd : Command}
    (hnodup : (store.map (fun c => c.id)).Nodup)
    (hmem : cmd ∈ fetchPending store)
    (hmac : macFalsy cmd.deviceMac = false)
    (hded : dedupHas dedup cmd.id = false)
    (hp : p cmd.id = false) :
    storeGet (pollPendingCommands p now true store dedup).store cmd.id = some cmd ∧
      dedupHas (pollPendingCommands p now true store dedup).dedup cmd.id = false ∧
      cmd.id ∉ publishedIds (pollPendingCommands p now true store dedup).published := by
  rw [poll_connected_eq]
  obtain ⟨l₁, l₂, hsplit, h1, h2⟩ := batch_split hmem (fetchPending_ids_nodup hnodup)
  rw [hsplit, List.foldl_append, List.foldl_cons]
  set st1 := l₁.foldl (processCmd p now)
    { store := store, dedup := dedup, published := [] } with hst1
  have hu1 := foldl_untouched p now l₁
    { store := store, dedup := dedup, published := [] } h1
  rw [← hst1] at hu1
  have hded1 : dedupHas st1.dedup cmd.id = false := by
    rw [hu1.2.1]; exact hded
  rw [processCmd_eq_pubfail p now hded1 hmac hp]
  have hu2 := foldl_untouched p now l₂ st1 h2
  refine ⟨?_, ?_, ?_⟩
  · rw [hu2.1, hu1.1]
    exact storeGet_of_mem_nodup (mem_fetchPending hmem).1 hnodup
  · rw [hu2.2.1]; exact hded1
  · rw [hu2.2.2, hu1.2.2]; simp [publishedIds]

theorem cycle_nonpending_untouched {p : String → Bool} {now : Nat}
    {store : List Command} {dedup : DedupCache} {id₀ : String} {c : Command}
    (hnodup : (store.map (fun d => d.id)).Nodup)
    (hget : storeGet store id₀ = some c)
    (hst : c.status ≠ .pending) :
    storeGet (pollPendingCommands p now true store dedup).store id₀ = some c ∧
      id₀ ∉ publishedIds (pollPendingCommands p now true store dedup).published := by
  have hne : ∀ cmd ∈ fetchPending store, cmd.id ≠ id₀ := by
    intro cmd hcmd he
    obtain ⟨hcs, hpend⟩ := mem_fetchPending hcmd
    have : storeGet store cmd.id = some cmd := storeGet_of_mem_nodup hcs hnodup
    rw [he, hget] at this
    exact hst (Option.some.inj this ▸ hpend)
  rw [poll_connected_eq]
  have hu := foldl_untouched p now (fetchPending store)
    { store := store, dedup := dedup, published := [] } hne
  refine ⟨?_, ?_⟩
  · rw [hu.1]; exact hget
  · rw [hu.2.2]; simp [publishedIds]

theorem patchFailed_forall₂ {store₀ s : List Command} (id : String)
    (h : List.Forall₂ (fun c c' => c' = c ∨ c' = failVersion c) store₀ s) :
    List.Forall₂ (fun c c' => c' = c ∨ c' = failVersion c) store₀
      (patchFailed s id noMacMsg) := by
  unfold patchFailed
  induction h with
  | nil => exact List.Forall₂.nil
  | cons hr _ ih =>
    rw [List.map_cons]
    refine List.Forall₂.cons ?_ ih
    rcases hr with rfl | rfl
    · by_cases hb : (‹Command›).id = id
      · exact Or.inr (by simp [hb, failVersion])
      · exact Or.inl (by simp [hb])
    · by_cases hb : (failVersion ‹Command›).id = id
      · exact Or.inr (by simp [hb, failVersion])
      · exact Or.inr (by simp [hb])

theorem processCmd_forall₂ {store₀ : List Command} {st : CycleState}
    (p : String → Bool) (n : Nat) (cmd : Command)
    (h : List.Forall₂ (fun c c' => c' = c ∨ c' = failVersion c) store₀ st.store) :
    List.Forall₂ (fun c c' => c' = c ∨ c' = failVersion c) store₀
      (processCmd p n st cmd).store := by
  unfold processCmd
  split_ifs
  · exact h
  · exact patchFailed_forall₂ cmd.id h
  · exact h
  · exact h

theorem foldl_forall₂ {store₀ : List Command} (p : String → Bool) (n : Nat) :
    ∀ (l : List Command) (st : CycleState),
      List.Forall₂ (fun c c' => c' = c ∨ c' = failVersion c) store₀ st.store →
      List.Forall₂ (fun c c' => c' = c ∨ c' = failVersion c) store₀
        (l.foldl (processCmd p n) st).store := by
  intro l
  induction l with
  | nil => exact fun _ h => h
  | cons c rest ih => exact fun st h => ih _ (processCmd_forall₂ p n c h)

theorem applyUpdate_absorb (store : List Command) (cid : Json) (u₁ u₂ : UpdateData) :
    applyUpdate (applyUpdate store cid u₁) cid u₂ = applyUpdate store cid u₂ := by
  unfold applyUpdate
  rw [List.map_map]
  apply List.map_congr_left
  intro c _
  by_cases hc : Json.str c.id = cid <;> simp [hc]

theorem handleStatusMessage_shape (parsed : Option Json) (t t' : String) :
    (handleStatusMessage parsed t = .drop ∧ handleStatusMessage parsed t' = .drop) ∨
    (∃ cid s r e,
      handleStatusMessage parsed t =
        .patch cid { status := s, result := r, error_message := e, executed_at := t } ∧
      handleStatusMessage parsed t' =
        .patch cid { status := s, result := r, error_message := e, executed_at := t' }) := by
  cases parsed with
  | none => exact Or.inl ⟨rfl, rfl⟩
  | some payload =>
    unfold handleStatusMessage
    by_cases hcid : jsTruthy (jsonGet payload "command_id") = true
    · cases hdec : decodeStatus (jsonGet payload "status") with
      | none => exact Or.inl (by simp [hcid, hdec])
      | some st =>
        refine Or.inr ⟨(jsonGet payload "command_id").getD .null, st,
          jsOrNull (jsonGet payload "result"),
          jsOrNull (jsonGet payload "error_message"), ?_, ?_⟩ <;>
          simp [hcid, hdec]
    · exact Or.inl (by simp [hcid])

theorem removeFirstOcc_of_not_contains {pat l : List Char}
    (h : listContainsSub pat l = false) : removeFirstOcc pat l = l := by
  induction l with
  | nil => rfl
  | cons c cs ih =>
    unfold listContainsSub at h
    rw [Bool.or_eq_false_iff] at h
    unfold removeFirstOcc
    rw [if_neg (by simp [h.1]), ih h.2]

theorem stripBearer_of_not_contains {s : String} (h : containsBearer s = false) :
    stripBearer s = s := by
  unfold stripBearer
  rw [removeFirstOcc_of_not_contains h]
  cases s
  rfl

/-! ## Claim theorems -/

/-- Claim C1: While a `recentlyPublished` entry exists for a command id, a
reconciliation cycle never publishes that command (first conjunct); hence
for two cycles within the cooldown window — any intervening cleanup runs
no later than dispatch time plus `PUBLISH_COOLDOWN` — a command
successfully published in the first cycle is skipped, not re-dispatched,
in the second (second conjunct). -/
theorem C1_dedup_entry_blocks_redispatch :
    (∀ (p : String → Bool) (now : Nat) (store : List Command) (dedup : DedupCache)
      (id : String), dedupHas dedup id = true →
        id ∉ publishedIds (pollPendingCommands p now true store dedup).published) ∧
    (∀ (p₁ p₂ : String → Bool) (t₁ t₂ tc : Nat) (store : List Command)
      (dedup : DedupCache) (id : String),
        id ∈ publishedIds (pollPendingCommands p₁ t₁ true store dedup).published →
        tc ≤ t₁ + PUBLISH_COOLDOWN →
        id ∉ publishedIds (pollPendingCommands p₂ t₂ true
          (pollPendingCommands p₁ t₁ true store dedup).store
          (cleanupRecentlyPublished
            (pollPendingCommands p₁ t₁ true store dedup).dedup tc)).published) := by
  constructor
  · intro p now store dedup id h
    exact cycle_skips_of_has h
  · intro p₁ p₂ t₁ t₂ tc store dedup id hpub htc
    have hentry := cycle_entry_of_published hpub
    have hhas : dedupHas (cleanupRecentlyPublished
        (pollPendingCommands p₁ t₁ true store dedup).dedup tc) id = true :=
      (dedupHas_iff_exists _ _).mpr
        ⟨t₁, mem_cleanup_of_fresh hentry (by simpa using htc)⟩
    exact cycle_skips_of_has hhas

/-- Witness for C1: a concrete first cycle at t=0 publishes `c1`; after a
cleanup at t=1000 a second cycle at t=5000 does not publish it again. -/
theorem C1_witness :
    "c1" ∈ publishedIds (pollPendingCommands (fun _ => true) 0 true
      [exCmd] []).published ∧
    "c1" ∉ publishedIds (pollPendingCommands (fun _ => true) 5000 true
      (pollPendingCommands (fun _ => true) 0 true [exCmd] []).store
      (cleanupRecentlyPublished
        (pollPendingCommands (fun _ => true) 0 true [exCmd] []).dedup
        1000)).published :=
  ⟨by decide,
   C1_dedup_entry_blocks_redispatch.2 (fun _ => true) (fun _ => true) 0 5000 1000
     [exCmd] [] "c1" (by decide) (by decide)⟩

/-- Counterexample to claim C2: The dedup check is `recentlyPublished.has`:
it ignores entry age. With an entry recorded at t=0 and a cycle at
t=40000 (entry aged beyond the 30s cooldown) and no cleanup run, the
still-pending resolvable command is NOT re-dispatched, contradicting
"eligibility depends only on entry age relative to the cooldown, not on
whether cleanup has run". -/
theorem C2_counterexample :
    (40000 : Nat) - 0 > PUBLISH_COOLDOWN ∧
    dedupHas [("c1", 0)] "c1" = true ∧
    "c1" ∉ publishedIds (pollPendingCommands (fun _ => true) 40000 true [exCmd]
      [("c1", 0)]).published := by
  decide

/-- Claim C2 amended: Re-dispatch eligibility is governed by entry presence,
not age: an identifier becomes eligible again exactly when the periodic
cleanup has removed its entry. Once a cleanup runs at a time at which
every entry for the id is older than the cooldown, the entry is gone and
a subsequent cycle re-dispatches the still-pending, resolvable command. -/
theorem C2_cleanup_restores_eligibility
    (p : String → Bool) (now tc : Nat) (store : List Command) (cache : DedupCache)
    (cmd : Command)
    (hexp : ∀ t, (cmd.id, t) ∈ cache → tc - t > PUBLISH_COOLDOWN)
    (hnodup : (store.map (fun c => c.id)).Nodup)
    (hmem : cmd ∈ fetchPending store)
    (hmac : macFalsy cmd.deviceMac = false)
    (hp : p cmd.id = true) :
    dedupHas (cleanupRecentlyPublished cache tc) cmd.id = false ∧
    cmd.id ∈ publishedIds (pollPendingCommands p now true store
      (cleanupRecentlyPublished cache tc)).published := by
  have h1 := dedupHas_cleanup_of_expired hexp
  exact ⟨h1, cycle_publishes hnodup hmem hmac h1 hp⟩

/-- Witness for C2 amended: entry `("c1", 0)`, cleanup at t=40000,
cycle then re-publishes `c1`. -/
theorem C2_witness :
    dedupHas (cleanupRecentlyPublished [("c1", 0)] 40000) "c1" = false ∧
    "c1" ∈ publishedIds (pollPendingCommands (fun _ => true) 40000 true [exCmd]
      (cleanupRecentlyPublished [("c1", 0)] 40000)).published :=
  C2_cleanup_restores_eligibility (fun _ => true) 40000 40000 [exCmd] [("c1", 0)]
    exCmd
    (by
      intro t ht
      have h0 : t = 0 := congrArg Prod.snd (List.mem_singleton.mp ht)
      subst h0
      decide)
    (by decide) (by decide) (by decide) (by decide)

/-- Claim C3: The Status Consumer's update is idempotent: the action derived
from a status-report message is a full overwrite of status, result, error
message, and execution timestamp, so applying it twice yields the same
store as applying it once (first conjunct); more generally a replay at any
later handler time leaves exactly the state a single application at that
time produces (second conjunct). -/
theorem C3_consumer_update_idempotent :
    (∀ (parsed : Option Json) (t : String) (store : List Command),
      applyConsumerAction (applyConsumerAction store (handleStatusMessage parsed t))
        (handleStatusMessage parsed t) =
      applyConsumerAction store (handleStatusMessage parsed t)) ∧
    (∀ (parsed : Option Json) (t t' : String) (store : List Command),
      applyConsumerAction (applyConsumerAction store (handleStatusMessage parsed t))
        (handleStatusMessage parsed t') =
      applyConsumerAction store (handleStatusMessage parsed t')) := by
  have habs : ∀ (parsed : Option Json) (t t' : String) (store : List Command),
      applyConsumerAction (applyConsumerAction store (handleStatusMessage parsed t))
        (handleStatusMessage parsed t') =
      applyConsumerAction store (handleStatusMessage parsed t') := by
    intro parsed t t' store
    rcases handleStatusMessage_shape parsed t t' with ⟨h1, h2⟩ | ⟨cid, s, r, e, h1, h2⟩
    · rw [h1, h2]
      rfl
    · rw [h1, h2]
      exact applyUpdate_absorb store cid _ _
  exact ⟨fun parsed t store => habs parsed t t store, habs⟩

/-- Claim C4: A dispatch issued while the transport is disconnected fails
without attempting delivery: `publishToMqtt` rejects with the
not-connected error before `mqttClient.publish` is ever called (nothing is
queued); a valid trigger request then gets HTTP 503 with no publish
attempt; and a reconciler tick while disconnected returns immediately,
publishing nothing and changing nothing. -/
theorem C4_disconnected_fails_without_delivery :
    (∀ brokerErr, publishToMqtt false brokerErr =
      { result := .error .notConnected, attempted := false }) ∧
    (∀ brokerErr req, jsTruthy req.topic = true → jsTruthy req.payload = true →
      publishEndpoint false brokerErr req = { status := 503, attempted := false }) ∧
    (∀ (p : String → Bool) (now : Nat) (store : List Command) (dedup : DedupCache),
      pollPendingCommands p now false store dedup =
        { store := store, dedup := dedup, published := [] }) := by
  refine ⟨fun _ => rfl, ?_, fun _ _ _ _ => rfl⟩
  intro brokerErr req h1 h2
  have hm : mentionsNotConnected (publishErrorMessage .notConnected) = true := by
    decide
  simp [publishEndpoint, h1, h2, publishToMqtt, hm]

/-- Witness for C4: a concrete valid request against a disconnected
transport gets 503 and no publish attempt. -/
theorem C4_witness :
    publishEndpoint false none
      { topic := some (.str "device/AA:BB:CC/commands"),
        payload := some (.obj [("k", .str "v")]) } =
      { status := 503, attempted := false } :=
  C4_disconnected_fails_without_delivery.2.1 none
    { topic := some (.str "device/AA:BB:CC/commands"),
      payload := some (.obj [("k", .str "v")]) } (by decide) (by decide)

/-- Counterexample to claim C5: The Status Consumer is not the only writer of
the status/error-message fields: a reconciliation cycle alone (no
status report involved) patches a pending no-MAC command's record from
`pending` to `failed` with an error message. -/
theorem C5_counterexample :
    (pollPendingCommands (fun _ => true) 0 true [exCmdNoMac] []).store =
      [failVersion exCmdNoMac] ∧
    exCmdNoMac.status = .pending ∧
    (failVersion exCmdNoMac).status = .failed ∧
    (failVersion exCmdNoMac).error_message = .str noMacMsg := by
  decide

/-- Claim C5 amended: With the single exception of the terminal no-MAC
failure patch, the reconciler writes none of the four fields: after any
reconciliation cycle every record is either exactly the input record or
that record with precisely `status := failed` and `error_message :=` the
no-MAC message overwritten; in particular the reconciler never writes
`result` or `executed_at`, and never writes status on successful
dispatch. All other writes of these fields are the Status Consumer's. -/
theorem C5_reconciler_writes_only_noMac_failure
    (p : String → Bool) (now : Nat) (connected : Bool) (store : List Command)
    (dedup : DedupCache) :
    List.Forall₂ (fun c c' => c' = c ∨ c' = failVersion c) store
      (pollPendingCommands p now connected store dedup).store := by
  cases connected
  · exact List.forall₂_same.mpr (fun x _ => Or.inl rfl)
  · rw [poll_connected_eq]
    exact foldl_forall₂ p now _ _ (List.forall₂_same.mpr (fun x _ => Or.inl rfl))

/-- Claim C6: A pending command in the polled batch whose device reference
has no MAC is patched to `failed` with the descriptive error message,
exactly once: the cycle publishes nothing for it, and any later cycle on
any store in which the record carries that failed state (whatever that
cycle's dedup cache) leaves the record untouched and again publishes
nothing for it — the command is never retried. -/
theorem C6_noMac_terminal_failure
    (p : String → Bool) (now : Nat) (store : List Command)
    (dedup : DedupCache) (cmd : Command)
    (hnodup : (store.map (fun c => c.id)).Nodup)
    (hmem : cmd ∈ fetchPending store)
    (hmac : macFalsy cmd.deviceMac = true)
    (hded : dedupHas dedup cmd.id = false) :
    storeGet (pollPendingCommands p now true store dedup).store cmd.id =
      some (failVersion cmd) ∧
    cmd.id ∉ publishedIds (pollPendingCommands p now true store dedup).published ∧
    (∀ (p₂ : String → Bool) (now₂ : Nat) (dedup₂ : DedupCache)
      (store₂ : List Command),
      (store₂.map (fun c => c.id)).Nodup →
      storeGet store₂ cmd.id = some (failVersion cmd) →
      storeGet (pollPendingCommands p₂ now₂ true store₂ dedup₂).store cmd.id =
        some (failVersion cmd) ∧
      cmd.id ∉ publishedIds
        (pollPendingCommands p₂ now₂ true store₂ dedup₂).published) := by
  obtain ⟨hget, -, hpub⟩ := @cycle_noMac_outcome p now store dedup cmd
    hnodup hmem hmac hded
  refine ⟨hget, hpub, ?_⟩
  intro p₂ now₂ dedup₂ store₂ hnodup₂ hget₂
  exact cycle_nonpending_untouched hnodup₂ hget₂ (by simp [failVersion])

/-- Witness for C6: the concrete no-MAC command `c2` is failed by the
first cycle, unpublished, and untouched by a second cycle run on the
resulting store. -/
theorem C6_witness :
    storeGet (pollPendingCommands (fun _ => true) 0 true [exCmdNoMac] []).store
      "c2" = some (failVersion exCmdNoMac) ∧
    "c2" ∉ publishedIds (pollPendingCommands (fun _ => true) 0 true
      [exCmdNoMac] []).published ∧
    storeGet (pollPendingCommands (fun _ => true) 3000 true
      [failVersion exCmdNoMac] []).store "c2" = some (failVersion exCmdNoMac) ∧
    "c2" ∉ publishedIds (pollPendingCommands (fun _ => true) 3000 true
      [failVersion exCmdNoMac] []).published := by
  have h := C6_noMac_terminal_failure (fun _ => true) 0 [exCmdNoMac]
    [] exCmdNoMac (by decide) (by decide) (by decide) (by decide)
  have h2 := h.2.2 (fun _ => true) 3000 [] [failVersion exCmdNoMac]
    (by decide) (by decide)
  exact ⟨h.1, h.2.1, h2.1, h2.2⟩

/-- Claim C7: Invalid inbound status messages cause no record mutation (and
the handler is a total function — the `catch` absorbs the JS exceptions):
a non-parseable message (the `JSON.parse` failure case) is dropped, and a
parsed message with a falsy/missing `command_id` or a status outside
`processing|completed|failed` is dropped; a dropped message leaves the
store exactly as it was. -/
theorem C7_invalid_status_messages_dropped :
    (∀ (t : String) (store : List Command),
      handleStatusMessage none t = .drop ∧
      applyConsumerAction store (handleStatusMessage none t) = store) ∧
    (∀ (payload : Json) (t : String) (store : List Command),
      jsTruthy (jsonGet payload "command_id") = false ∨
        decodeStatus (jsonGet payload "status") = none →
      handleStatusMessage (some payload) t = .drop ∧
      applyConsumerAction store (handleStatusMessage (some payload) t) = store) := by
  constructor
  · exact fun t store => ⟨rfl, rfl⟩
  · intro payload t store h
    have hd : handleStatusMessage (some payload) t = .drop := by
      rcases h with h | h
      · simp [handleStatusMessage, h]
      · by_cases hc : jsTruthy (jsonGet payload "command_id") = true
        · simp [handleStatusMessage, hc, h]
        · simp [handleStatusMessage, hc]
    exact ⟨hd, by rw [hd]; rfl⟩

/-- Witness for C7: a message with an unrecognized status value `done`,
and a message with no `command_id`, are both dropped without mutating a
concrete store. -/
theorem C7_witness :
    (handleStatusMessage
        (some (.obj [("command_id", .str "c1"), ("status", .str "done")])) "T" =
      .drop ∧
    applyConsumerAction [exCmd] (handleStatusMessage
        (some (.obj [("command_id", .str "c1"), ("status", .str "done")])) "T") =
      [exCmd]) ∧
    (handleStatusMessage (some (.obj [("status", .str "completed")])) "T" =
      .drop ∧
    applyConsumerAction [exCmd] (handleStatusMessage
        (some (.obj [("status", .str "completed")])) "T") = [exCmd]) :=
  ⟨C7_invalid_status_messages_dropped.2
      (.obj [("command_id", .str "c1"), ("status", .str "done")]) "T" [exCmd]
      (by decide),
   C7_invalid_status_messages_dropped.2
      (.obj [("status", .str "completed")]) "T" [exCmd] (by decide)⟩

/-- Claim C8: When the publish for a pending batch command fails, the cycle
leaves its record exactly as it was (still `pending`), records no dedup
entry for it, and publishes nothing for it; and in a later cycle in whose
batch the command appears again with a succeeding publish, it is
dispatched — the failure is retried, and a cache entry exists only after
a successful dispatch. -/
theorem C8_publish_failure_leaves_pending_uncached
    (p : String → Bool) (now : Nat) (store : List Command) (dedup : DedupCache)
    (cmd : Command)
    (hnodup : (store.map (fun c => c.id)).Nodup)
    (hmem : cmd ∈ fetchPending store)
    (hmac : macFalsy cmd.deviceMac = false)
    (hded : dedupHas dedup cmd.id = false)
    (hp : p cmd.id = false) :
    cmd.status = .pending ∧
    storeGet (pollPendingCommands p now true store dedup).store cmd.id = some cmd ∧
    dedupHas (pollPendingCommands p now true store dedup).dedup cmd.id = false ∧
    cmd.id ∉ publishedIds (pollPendingCommands p now true store dedup).published ∧
    (∀ (p₂ : String → Bool) (now₂ : Nat), p₂ cmd.id = true →
      cmd ∈ fetchPending (pollPendingCommands p now true store dedup).store →
      cmd.id ∈ publishedIds (pollPendingCommands p₂ now₂ true
        (pollPendingCommands p now true store dedup).store
        (pollPendingCommands p now true store dedup).dedup).published) := by
  obtain ⟨hget, hded1, hpub⟩ := @cycle_pubfail_outcome p now store dedup cmd
    hnodup hmem hmac hded hp
  have hids : (pollPendingCommands p now true store dedup).store.map
      (fun c => c.id) = store.map (fun c => c.id) := by
    rw [poll_connected_eq]
    exact foldl_store_ids p now _ _
  have hnodup1 : ((pollPendingCommands p now true store dedup).store.map
      (fun c => c.id)).Nodup := by
    rw [hids]; exact hnodup
  refine ⟨(mem_fetchPending hmem).2, hget, hded1, hpub, ?_⟩
  intro p₂ now₂ hp₂ hmem₂
  exact cycle_publishes hnodup1 hmem₂ hmac hded1 hp₂

/-- Witness for C8: with a broker that rejects the publish, the concrete
cycle leaves `c1` pending and uncached; a later cycle with a working
broker publishes it. -/
theorem C8_witness :
    exCmd.status = .pending ∧
    storeGet (pollPendingCommands (fun _ => false) 0 true [exCmd] []).store "c1" =
      some exCmd ∧
    dedupHas (pollPendingCommands (fun _ => false) 0 true [exCmd] []).dedup "c1" =
      false ∧
    "c1" ∉ publishedIds (pollPendingCommands (fun _ => false) 0 true
      [exCmd] []).published ∧
    "c1" ∈ publishedIds (pollPendingCommands (fun _ => true) 3000 true
      (pollPendingCommands (fun _ => false) 0 true [exCmd] []).store
      (pollPendingCommands (fun _ => false) 0 true [exCmd] []).dedup).published := by
  have h := C8_publish_failure_leaves_pending_uncached (fun _ => false) 0 [exCmd]
    [] exCmd (by decide) (by decide) (by decide) (by decide) (by decide)
  exact ⟨h.1, h.2.1, h.2.2.1, h.2.2.2.1,
    h.2.2.2.2 (fun _ => true) 3000 (by decide) (by decide)⟩

/-- Counterexample to claim C9: An *empty* payload — the empty JSON object —
passes validation: with the transport connected the endpoint publishes it
and answers 200, not 400, refuting "topic or payload absent or empty ⇒
400 and no publish". (JS `!payload` is truthiness, and `{}` is truthy.) -/
theorem C9_counterexample :
    publishEndpoint true none
      { topic := some (.str "device/AA:BB:CC/commands"),
        payload := some (.obj []) } =
      { status := 200, attempted := true } := by
  decide

/-- Claim C9 amended: Validation is JS truthiness: the request fails with
400 — and no publish is attempted — exactly when the topic or the payload
is absent or falsy (`null`, `""`, `0`, `false`); a present but truthy
"empty" value such as the empty object proceeds to the publish path. -/
theorem C9_validation_is_truthiness
    (connected : Bool) (brokerErr : Option String) (req : PublishRequest) :
    ((publishEndpoint connected brokerErr req).status = 400 ↔
      (jsTruthy req.topic = false ∨ jsTruthy req.payload = false)) ∧
    ((jsTruthy req.topic = false ∨ jsTruthy req.payload = false) →
      (publishEndpoint connected brokerErr req).attempted = false) := by
  by_cases h1 : jsTruthy req.topic = true
  · by_cases h2 : jsTruthy req.payload = true
    · have hs : (publishEndpoint connected brokerErr req).status ≠ 400 := by
        unfold publishEndpoint
        rw [if_neg (by simp [h1]), if_neg (by simp [h2])]
        cases connected <;> rcases brokerErr with - | m <;>
          simp [publishToMqtt, publishErrorMessage] <;> split_ifs <;> simp
      constructor
      · exact ⟨fun h400 => absurd h400 hs, fun hor => absurd hor (by simp [h1, h2])⟩
      · exact fun hor => absurd hor (by simp [h1, h2])
    · have h2' : jsTruthy req.payload = false := by
        simpa using h2
      have he : publishEndpoint connected brokerErr req =
          { status := 400, attempted := false } := by
        unfold publishEndpoint
        rw [if_neg (by simp [h1]), if_pos (by simp [h2'])]
      rw [he]
      exact ⟨by simp [h2'], fun _ => rfl⟩
  · have h1' : jsTruthy req.topic = false := by
      simpa using h1
    have he : publishEndpoint connected brokerErr req =
        { status := 400, attempted := false } := by
      unfold publishEndpoint
      rw [if_pos (by simp [h1'])]
    rw [he]
    exact ⟨by simp [h1'], fun _ => rfl⟩

/-- Witness for C9 amended: a request with an absent topic gets 400 and
no publish attempt; one with an empty-string payload likewise. -/
theorem C9_witness :
    (publishEndpoint true none
      { topic := none, payload := some (.str "x") }).status = 400 ∧
    (publishEndpoint true none
      { topic := none, payload := some (.str "x") }).attempted = false ∧
    (publishEndpoint true none
      { topic := some (.str "t"), payload := some (.str "") }).status = 400 :=
  ⟨(C9_validation_is_truthiness true none
      { topic := none, payload := some (.str "x") }).1.mpr (Or.inl rfl),
   (C9_validation_is_truthiness true none
      { topic := none, payload := some (.str "x") }).2 (Or.inl rfl),
   (C9_validation_is_truthiness true none
      { topic := some (.str "t"), payload := some (.str "") }).1.mpr
     (Or.inr (by decide))⟩

/-- Counterexample to claim C10: When the configured secret itself contains the
substring `"Bearer "` — here `"xBearer y"` — a request whose Authorization
header is the bare secret (which does not start with `"Bearer "`) is
rejected, refuting "a header consisting of the bare secret with no
'Bearer ' prefix is also accepted". -/
theorem C10_counterexample :
    authMiddleware (some "xBearer y") (some "xBearer y") = .unauthorized ∧
    listStartsWith "Bearer ".toList "xBearer y".toList = false := by
  decide

/-- Claim C10 amended: With a secret configured, a request is accepted
exactly when the Authorization header with its first occurrence of the
substring `"Bearer "` removed equals the secret; a missing header is
rejected; and a header consisting of the bare secret is accepted provided
the secret does not itself contain `"Bearer "` as a substring. -/
theorem C10_auth_replace_semantics (s : String) :
    (∀ h, authMiddleware (some s) (some h) = .allow ↔ stripBearer h = s) ∧
    authMiddleware (some s) none = .unauthorized ∧
    (containsBearer s = false → authMiddleware (some s) (some s) = .allow) := by
  refine ⟨?_, rfl, ?_⟩
  · intro h
    show (if stripBearer h = s then AuthResult.allow else .unauthorized) =
      .allow ↔ stripBearer h = s
    split_ifs with hs
    · simp [hs]
    · simp [hs]
  · intro hc
    show (if stripBearer s = s then AuthResult.allow else .unauthorized) = .allow
    rw [if_pos (stripBearer_of_not_contains hc)]

/-- Witness for C10 amended: for the secret `s3cret`, the prefixed header
is accepted and the bare-secret header is accepted. -/
theorem C10_witness :
    authMiddleware (some "s3cret") (some "Bearer s3cret") = .allow ∧
    authMiddleware (some "s3cret") (some "s3cret") = .allow :=
  ⟨((C10_auth_replace_semantics "s3cret").1 "Bearer s3cret").mpr (by decide),
   (C10_auth_replace_semantics "s3cret").2.2 (by decide)⟩

end MqttBridge
